import Mathlib

/-!
Verification of the alert lifecycle reconciliation engine of
`sql-alertmanager` (`main.go`, `alertstate.go`).

The Go code is shallowly embedded:

* Go `map[string]string` label sets become association lists with
  no-duplicate-key side conditions where map reasoning is needed
  (`LabelSet`); `map[string]time.Time` debounce state becomes `StateMap`.
* `time.Time` / `time.Duration` values become `Int` (nanosecond ticks);
  within one evaluation cycle all `time.Now()` calls are modelled by a
  single `now` value.
* The `sort.Strings` call of `key` becomes `List.insertionSort` over
  the explicit bytewise comparator `strLe` (the order `sort.Strings`
  uses; on UTF-8 it coincides with code-point order).
* The external JSON codec used by `Manager.Load` is modelled at its
  interface boundary (`FileState`): a file is missing, well formed
  (decoding to a state map), or malformed (decoding fails).
* The per-rule goroutine body of `main.go` (lines 129-342) is split into
  `phaseA` (mark/filter, lines 248-255), `phaseB` (reconciliation against
  the backend's active alerts, lines 288-309), `reconcile` (both phases
  plus batch assembly), `evalCycle` (one tick including the early
  `return` statements at lines 238 and 274 and the unconditional post at
  lines 312-340), and `ruleLoopStep` (one iteration of the
  `for`/`select` loop).  `BState.resolvedKeys` is a ghost trace of the
  `store.MarkResolved` calls made during a cycle.
-/

/-- Go `map[string]string` (label / annotation sets), as an association
list.  Go maps cannot contain a key twice, so lemmas that need map
semantics take a `Nodup` hypothesis on the keys. -/
abbrev LabelSet := List (String × String)

/-- Go `map[string]time.Time`: the debounce store's in-memory state. -/
abbrev StateMap := List (String × Int)

/-- Go map read `labels[k]` returning presence information
(used by `reflect.DeepEqual` and by lemmas). -/
def mapGetOpt : LabelSet → String → Option String
  | [], _ => none
  | (k', v) :: rest, k => if k' = k then some v else mapGetOpt rest k

/-- Go map read `labels[k]` (zero value `""` when the key is absent). -/
def mapGet (l : LabelSet) (k : String) : String :=
  (mapGetOpt l k).getD ""

/-- Lexicographic comparison of character lists by code point, the
order `sort.Strings` uses (bytewise UTF-8 order coincides with code
point order). -/
def charListLe : List Char → List Char → Bool
  | [], _ => true
  | _ :: _, [] => false
  | a :: as, b :: bs =>
    if a.toNat < b.toNat then true
    else if b.toNat < a.toNat then false
    else charListLe as bs

/-- The string order used by `sort.Strings`. -/
def strLe (a b : String) : Bool :=
  charListLe a.data b.data

/-- `key` from `alertstate.go` lines 15-35: the alert identity function.
Empty map to `""`; otherwise the keys are sorted and rendered as
`k=v` pairs joined by `","`. -/
def key (labels : LabelSet) : String :=
  if labels.length = 0 then ""
  else
    let keys := List.insertionSort (fun a b => strLe a b = true) (labels.map Prod.fst)
    String.intercalate "," (keys.map (fun k => k ++ "=" ++ mapGet labels k))

/-- Go map read `m.state[key]` in the debounce store. -/
def lookupTime : StateMap → String → Option Int
  | [], _ => none
  | (k', t) :: rest, k => if k' = k then some t else lookupTime rest k

/-- `Manager.MarkActive` (`alertstate.go` lines 74-83): create a record
stamped `now` if none exists, otherwise a no-op.  (The synchronous
flush is a file-system effect outside the mapping.) -/
def markActive (st : StateMap) (k : String) (now : Int) : StateMap :=
  if (lookupTime st k).isSome then st else (k, now) :: st

/-- `Manager.MarkResolved` (`alertstate.go` lines 86-95): delete the
record if present, otherwise a no-op. -/
def markResolved (st : StateMap) (k : String) : StateMap :=
  st.filter (fun p => !(p.1 = k : Bool))

/-- `Manager.ShouldFire` (`alertstate.go` lines 98-107):
`time.Since(first) >= forDuration` when a record exists, else `false`. -/
def shouldFire (st : StateMap) (k : String) (forD now : Int) : Bool :=
  match lookupTime st k with
  | none => false
  | some first => decide (forD ≤ now - first)

/-- Result of reading the store's backing file, with the external JSON
codec modelled at its interface boundary: `missing` is `os.ErrNotExist`,
`valid m` is content that `json.Unmarshal` decodes to `m`, `malformed`
is content it rejects. -/
inductive FileState where
  | missing
  | valid (m : StateMap)
  | malformed
deriving DecidableEq, Repr

/-- `Manager.Load` (`alertstate.go` lines 50-59): a missing file is an
empty store and no error; otherwise the unmarshal result is returned. -/
def managerLoad : FileState → Except Unit StateMap
  | .missing => .ok []
  | .valid m => .ok m
  | .malformed => .error ()

/-- What `main` does after calling `store.Load()`: proceed with a store
state, or abort the process. -/
inductive StartupResult where
  | proceed (st : StateMap)
  | abort
deriving DecidableEq, Repr

/-- `main.go` lines 61-67: a `Load` error is logged (`slog.Error`) and
the process continues with the store still empty; only config / DB
errors use `log.Fatalf`. -/
def startupLoad (fs : FileState) : StartupResult :=
  match managerLoad fs with
  | .ok m => .proceed m
  | .error _ => .proceed []

/-- `models.PostableAlert` as used by the cycle: labels, annotations,
`StartsAt`, optional `EndsAt`. -/
structure PostableAlert where
  labels : LabelSet
  annotations : LabelSet
  startsAt : Int
  endsAt : Option Int
deriving DecidableEq, Repr

/-- A backend `GettableAlert` (labels, annotations, `StartsAt`). -/
structure GettableAlert where
  labels : LabelSet
  annotations : LabelSet
  startsAt : Int
deriving DecidableEq, Repr

/-- `reflect.DeepEqual` on two Go string maps: equal length, and every
pair of the first is present in the second. -/
def deepEqual (l₁ l₂ : LabelSet) : Bool :=
  l₁.length == l₂.length && l₁.all (fun kv => mapGetOpt l₂ kv.1 == some kv.2)

/-- The inner scan of `main.go` lines 290-300: index of the first label
set (of the firing alerts) that is `reflect.DeepEqual` to `L`. -/
def findMatchL (L : LabelSet) : List LabelSet → Option Nat
  | [] => none
  | M :: rest => if deepEqual L M then some 0 else (findMatchL L rest).map (· + 1)

/-- The in-place pointer write `firingAlerts[idx].StartsAt = ...`
(`main.go` line 296). -/
def setStartAt : List PostableAlert → Nat → Int → List PostableAlert
  | [], _, _ => []
  | a :: rest, 0, t => { a with startsAt := t } :: rest
  | a :: rest, n + 1, t => a :: setStartAt rest n t

/-- `main.go` lines 248-255: for each firing alert in order, mark its
identity active, then keep its index when `ShouldFire` passes.  Returns
the updated store and the kept indices (the candidate-submit set). -/
def phaseA (forD now : Int) : StateMap → Nat → List PostableAlert → StateMap × List Nat
  | st, _, [] => (st, [])
  | st, i, a :: rest =>
    let k := key a.labels
    let st' := markActive st k now
    let r := phaseA forD now st' (i + 1) rest
    if shouldFire st' k forD now then (r.1, i :: r.2) else r

/-- State threaded through the loop over the backend's active alerts
(`main.go` lines 288-309).  `firing` is the shared mutable slice of
firing alerts, `resolved` the resolution alerts appended to
`filteredAlerts`, `st` the debounce store, and `resolvedKeys` a ghost
trace of the `store.MarkResolved` calls. -/
structure BState where
  firing : List PostableAlert
  resolved : List PostableAlert
  st : StateMap
  resolvedKeys : List String
deriving DecidableEq, Repr

/-- The resolution alert built at `main.go` lines 302-306:
`Alert: existing.Alert` copies the labels only (annotations are left at
their zero value), `StartsAt` is the existing start, `EndsAt` is now. -/
def resolutionOf (now : Int) (ex : GettableAlert) : PostableAlert :=
  { labels := ex.labels, annotations := [], startsAt := ex.startsAt,
    endsAt := some now }

/-- One iteration of the loop at `main.go` lines 288-309 for a single
existing backend alert. -/
def stepExisting (now : Int) (s : BState) (ex : GettableAlert) : BState :=
  match findMatchL ex.labels (s.firing.map (fun a => a.labels)) with
  | some i => { s with firing := setStartAt s.firing i ex.startsAt }
  | none =>
    { s with
      resolved := s.resolved ++ [resolutionOf now ex],
      st := markResolved s.st (key ex.labels),
      resolvedKeys := s.resolvedKeys ++ [key ex.labels] }

/-- The whole loop at `main.go` lines 288-309. -/
def phaseB (now : Int) (exs : List GettableAlert) (s : BState) : BState :=
  exs.foldl (stepExisting now) s

/-- A placeholder alert for out-of-range index reads (never reached on
indices produced by `phaseA`). -/
def emptyAlert : PostableAlert :=
  { labels := [], annotations := [], startsAt := 0, endsAt := none }

/-- Dereference of a stored pointer into the firing slice. -/
def nthA (l : List PostableAlert) (n : Nat) : PostableAlert :=
  (l.get? n).getD emptyAlert

/-- Output of one reconciliation: the submission batch (the
possibly start-time-adjusted candidates followed by the resolution
alerts), the final store, and the trace of `MarkResolved` calls. -/
structure RecResult where
  batch : List PostableAlert
  st : StateMap
  resolvedKeys : List String
deriving DecidableEq, Repr

/-- The reconciliation engine for one cycle (`main.go` lines 248-309
plus the batch assembly): phase A, then phase B against the backend's
active alerts; the batch is `filteredAlerts` (candidates are pointers
into the firing slice, so phase B's start-time writes are visible). -/
def reconcile (st : StateMap) (forD now : Int) (firing : List PostableAlert)
    (exs : List GettableAlert) : RecResult :=
  let pa := phaseA forD now st 0 firing
  let bs := phaseB now exs { firing := firing, resolved := [], st := pa.1, resolvedKeys := [] }
  { batch := pa.2.map (nthA bs.firing) ++ bs.resolved,
    st := bs.st,
    resolvedKeys := bs.resolvedKeys }

/-- Outcome of one tick of a rule's goroutine: `exited` when the body
executes `return` (the goroutine — hence the rule's loop — terminates),
`posted` when it reaches the `PostAlerts` call with the given batch and
then waits for the next tick. -/
inductive CycleOutcome where
  | exited (st : StateMap)
  | posted (st : StateMap) (batch : List PostableAlert)
deriving DecidableEq, Repr

/-- One tick of the goroutine body (`main.go` lines 234-340), given the
firing alerts built from the query rows and the backend fetch result
(`none` is a `GetAlerts` error).  Line 238 `return`s when no rows
fired; line 274 `return`s when the fetch failed (after phase A already
mutated the store); otherwise the batch is posted unconditionally. -/
def evalCycle (st : StateMap) (forD now : Int) (firing : List PostableAlert)
    (fetch : Option (List GettableAlert)) : CycleOutcome :=
  if firing.isEmpty then .exited st
  else
    match fetch with
    | none => .exited (phaseA forD now st 0 firing).1
    | some exs =>
      let r := reconcile st forD now firing exs
      .posted r.st r.batch

/-- The batch handed to `PostAlerts`, when the cycle reached the post. -/
def postedBatch : CycleOutcome → Option (List PostableAlert)
  | .exited _ => none
  | .posted _ b => some b

/-- Status of a rule's loop after one iteration of the `for`/`select`
at `main.go` lines 129-342: back to waiting for a tick, or the
goroutine has returned. -/
inductive LoopStatus where
  | idle (st : StateMap)
  | terminated (st : StateMap)
deriving DecidableEq, Repr

/-- One iteration of a rule's `for`/`select` loop: on cancellation the
goroutine returns; otherwise the tick body runs and the loop continues
only when the body did not `return`. -/
def ruleLoopStep (cancelled : Bool) (st : StateMap) (forD now : Int)
    (firing : List PostableAlert) (fetch : Option (List GettableAlert)) : LoopStatus :=
  if cancelled then .terminated st
  else
    match evalCycle st forD now firing fetch with
    | .exited st' => .terminated st'
    | .posted st' _ => .idle st'

/-! ### Order properties of the `sort.Strings` comparison -/

theorem charListLe_refl : ∀ a : List Char, charListLe a a = true
  | [] => rfl
  | x :: xs => by simp [charListLe, charListLe_refl xs]

theorem charListLe_total : ∀ a b : List Char,
    charListLe a b = true ∨ charListLe b a = true
  | [], _ => Or.inl rfl
  | _ :: _, [] => Or.inr rfl
  | x :: xs, y :: ys => by
    rcases Nat.lt_trichotomy x.toNat y.toNat with h | h | h
    · exact Or.inl (by simp [charListLe, h])
    · rcases charListLe_total xs ys with h' | h'
      · exact Or.inl (by simp [charListLe, h, h'])
      · exact Or.inr (by simp [charListLe, h.symm, h'])
    · exact Or.inr (by simp [charListLe, h])

theorem charListLe_trans (a : List Char) : ∀ b c, charListLe a b = true →
    charListLe b c = true → charListLe a c = true := by
  induction a with
  | nil => intro b c _ _; rfl
  | cons x xs ih =>
    intro b c h₁ h₂
    cases b with
    | nil => simp [charListLe] at h₁
    | cons y ys =>
      cases c with
      | nil => simp [charListLe] at h₂
      | cons z zs =>
        simp only [charListLe] at h₁ h₂ ⊢
        rcases Nat.lt_trichotomy x.toNat y.toNat with hxy | hxy | hxy <;>
          rcases Nat.lt_trichotomy y.toNat z.toNat with hyz | hyz | hyz
        · rw [if_pos (by omega)]
        · rw [if_pos (by omega)]
        · rw [if_neg (by omega), if_pos (by omega)] at h₂; simp at h₂
        · rw [if_pos (by omega)]
        · rw [if_neg (by omega), if_neg (by omega)] at h₁ h₂ ⊢
          exact ih ys zs h₁ h₂
        · rw [if_neg (by omega), if_pos (by omega)] at h₂; simp at h₂
        · rw [if_neg (by omega), if_pos (by omega)] at h₁; simp at h₁
        · rw [if_neg (by omega), if_pos (by omega)] at h₁; simp at h₁
        · rw [if_neg (by omega), if_pos (by omega)] at h₁; simp at h₁

theorem charListLe_antisymm (a : List Char) : ∀ b, charListLe a b = true →
    charListLe b a = true → a = b := by
  induction a with
  | nil =>
    intro b _ h₂
    cases b with
    | nil => rfl
    | cons y ys => simp [charListLe] at h₂
  | cons x xs ih =>
    intro b h₁ h₂
    cases b with
    | nil => simp [charListLe] at h₁
    | cons y ys =>
      simp only [charListLe] at h₁ h₂
      rcases Nat.lt_trichotomy x.toNat y.toNat with hxy | hxy | hxy
      · rw [if_neg (by omega), if_pos (by omega)] at h₂; simp at h₂
      · rw [if_neg (by omega), if_neg (by omega)] at h₁ h₂
        have hx : x = y := Char.ext (UInt32.toNat.inj hxy)
        rw [hx, ih ys h₁ h₂]
      · rw [if_neg (by omega), if_pos (by omega)] at h₁; simp at h₁

instance : IsTotal String (fun a b => strLe a b = true) :=
  ⟨fun a b => charListLe_total a.data b.data⟩

instance : IsTrans String (fun a b => strLe a b = true) :=
  ⟨fun a b c => charListLe_trans a.data b.data c.data⟩

instance : IsAntisymm String (fun a b => strLe a b = true) :=
  ⟨fun a b h₁ h₂ => String.ext (charListLe_antisymm a.data b.data h₁ h₂)⟩

/-! ### Map lookups and permutations -/

theorem mapGetOpt_perm (k : String) {l₁ l₂ : LabelSet} (hp : l₁.Perm l₂)
    (hnd : (l₁.map Prod.fst).Nodup) : mapGetOpt l₁ k = mapGetOpt l₂ k := by
  induction hp with
  | nil => rfl
  | cons x p ih =>
    have hnd' : ((_ :: _ : LabelSet).map Prod.fst).Nodup := hnd
    simp only [List.map_cons, List.nodup_cons] at hnd'
    simp only [mapGetOpt]
    by_cases h : x.1 = k
    · simp [h]
    · simp only [if_neg h]
      exact ih hnd'.2
  | swap x y l =>
    simp only [List.map_cons, List.nodup_cons, List.mem_cons] at hnd
    simp only [mapGetOpt]
    by_cases hy : y.1 = k <;> by_cases hx : x.1 = k
    · exact absurd (Or.inl (hy.trans hx.symm)) hnd.1
    · simp [hy, hx]
    · simp [hy, hx]
    · simp [hy, hx]
  | trans p₁ p₂ ih₁ ih₂ =>
    have hnd₂ := (p₁.map Prod.fst).nodup hnd
    exact (ih₁ hnd).trans (ih₂ hnd₂)

theorem mapGet_perm (k : String) {l₁ l₂ : LabelSet} (hp : l₁.Perm l₂)
    (hnd : (l₁.map Prod.fst).Nodup) : mapGet l₁ k = mapGet l₂ k := by
  simp [mapGet, mapGetOpt_perm k hp hnd]

/-! ### Debounce store lemmas -/

theorem lookupTime_markActive_isSome (st : StateMap) (k : String) (now : Int) :
    (lookupTime (markActive st k now) k).isSome := by
  unfold markActive
  by_cases h : (lookupTime st k).isSome
  · simp [h]
  · simp [h, lookupTime]

theorem markActive_of_isSome {st : StateMap} {k : String}
    (h : (lookupTime st k).isSome) (t : Int) : markActive st k t = st := by
  simp [markActive, h]

/-! ### Claim theorems: identity function and debounce store -/

/-- C9: the identity function is deterministic and order-independent:
`key` of the empty mapping is `""`, and two label mappings holding the
same key/value pairs (a permutation of one another, keys unique as in a
Go map) get the same identity string. -/
theorem key_order_independent :
    key ([] : LabelSet) = "" ∧
    ∀ l₁ l₂ : LabelSet, (l₁.map Prod.fst).Nodup → l₁.Perm l₂ → key l₁ = key l₂ := by
  refine ⟨rfl, fun l₁ l₂ hnd hp => ?_⟩
  have hlen : l₁.length = l₂.length := hp.length_eq
  simp only [key]
  by_cases h0 : l₁.length = 0
  · rw [if_pos h0, if_pos (hlen ▸ h0)]
  · rw [if_neg h0, if_neg (fun h => h0 (hlen ▸ h))]
    have hkeys : List.insertionSort (fun a b => strLe a b = true) (l₁.map Prod.fst)
        = List.insertionSort (fun a b => strLe a b = true) (l₂.map Prod.fst) :=
      List.eq_of_perm_of_sorted
        (((List.perm_insertionSort _ _).trans (hp.map Prod.fst)).trans
          (List.perm_insertionSort _ _).symm)
        (List.sorted_insertionSort _ _) (List.sorted_insertionSort _ _)
    have hf : (fun k => k ++ "=" ++ mapGet l₁ k) = (fun k => k ++ "=" ++ mapGet l₂ k) :=
      funext fun k => by rw [mapGet_perm k hp hnd]
    rw [hkeys, hf]

/-- Closed instance of `key_order_independent`: the two orderings of
`{a:1, b:2}` canonicalize identically. -/
theorem key_order_independent_witness :
    key [("a", "1"), ("b", "2")] = key [("b", "2"), ("a", "1")] :=
  key_order_independent.2 _ _ (by decide) (by decide)

/-- C10: the identity function is not injective: `{"a": "1,b=2"}` and
`{"a": "1", "b": "2"}` are different mappings (they disagree at key
`"b"`) yet canonicalize to the same identity string `"a=1,b=2"`,
because `","` and `"="` are not escaped. -/
theorem key_not_injective :
    key [("a", "1,b=2")] = key [("a", "1"), ("b", "2")] ∧
    mapGet [("a", "1,b=2")] "b" ≠ mapGet [("a", "1"), ("b", "2")] "b" := by
  constructor
  · decide
  · decide

/-- C7: `ShouldFire` is true iff a record exists and `now - firstSeen`
is at least the for-duration; an identity with no record never fires. -/
theorem shouldFire_spec :
    (∀ (st : StateMap) (k : String) (forD now : Int), shouldFire st k forD now = true ↔
      ∃ first, lookupTime st k = some first ∧ forD ≤ now - first) ∧
    (∀ (st : StateMap) (k : String) (forD now : Int),
      lookupTime st k = none → shouldFire st k forD now = false) := by
  constructor
  · intro st k forD now
    unfold shouldFire
    cases h : lookupTime st k with
    | none => simp
    | some first => simp [h]
  · intro st k forD now h
    simp [shouldFire, h]

/-- Closed instance of `shouldFire_spec`: an identity with no record
does not fire even at a zero for-duration. -/
theorem shouldFire_spec_witness : shouldFire [] "a" 0 5 = false :=
  shouldFire_spec.2 [] "a" 0 5 rfl

/-- C8: `MarkActive` is idempotent on the stored mapping: a second call
for the same identity (with no intervening `MarkResolved`) is a no-op,
leaving the stored first-seen timestamp unchanged. -/
theorem markActive_idempotent (st : StateMap) (k : String) (t₁ t₂ : Int) :
    markActive (markActive st k t₁) k t₂ = markActive st k t₁ :=
  markActive_of_isSome (lookupTime_markActive_isSome st k t₁) t₂

/-- Counterexample to C6 as stated: `main` does not abort on a
malformed state file — `main.go` lines 62-67 log the `Load` error with
`slog.Error` and fall through (unlike the `log.Fatalf` used for config
and DB errors), so startup proceeds with an empty store. -/
theorem malformed_state_does_not_abort_cex :
    startupLoad FileState.malformed ≠ StartupResult.abort := by decide

/-- C6 amended: `Load()` on a missing backing file succeeds and leaves
the store empty; `Load()` on a malformed file returns an error; at
startup that error is logged and the process proceeds with the store
still empty rather than aborting. -/
theorem load_error_logged_not_fatal :
    managerLoad FileState.missing = Except.ok [] ∧
    managerLoad FileState.malformed = Except.error () ∧
    startupLoad FileState.malformed = StartupResult.proceed [] :=
  ⟨rfl, rfl, rfl⟩

/-! ### Claim theorems: loop termination and posting -/

/-- Evidence for C4 being a code bug: without cancellation, a tick whose
query yields zero rows (`main.go` line 238) and a tick whose backend
fetch fails (line 274) both `return` from the goroutine, permanently
terminating the rule's loop instead of going back to `Idle` — note the
second conjunct also shows the fetch-failure exit happens after phase A
already created the debounce record. -/
theorem rule_loop_exits_without_cancellation :
    ruleLoopStep false [] 5 10 [] (some []) = LoopStatus.terminated [] ∧
    ruleLoopStep false [] 5 10
        [{ labels := [("a", "1")], annotations := [], startsAt := 10, endsAt := none }] none
      = LoopStatus.terminated [("a=1", 10)] := by
  constructor
  · decide
  · decide

/-- Counterexample to C5 as stated: a cycle with one firing instance
that is still inside its for-duration window and no backend active
alerts produces an empty submission batch, yet `PostAlerts` is still
called (the post at `main.go` lines 312-340 is unconditional). -/
theorem empty_batch_still_posted_cex :
    postedBatch (evalCycle [] 5 10
        [{ labels := [("a", "1")], annotations := [], startsAt := 10, endsAt := none }]
        (some [])) = some [] := by decide

/-- C5 amended: a submission is skipped only when the cycle exits the
rule's loop early — an empty firing set or a failed backend fetch, both
of which `return` from the goroutine; whenever the firing set is
nonempty and the fetch succeeds, the batch is posted unconditionally,
even when it is empty. -/
theorem submission_skipped_only_on_loop_exit (st : StateMap) (forD now : Int)
    (firing : List PostableAlert) (exs : List GettableAlert)
    (fetch : Option (List GettableAlert)) (h : firing ≠ []) :
    (postedBatch (evalCycle st forD now firing (some exs))).isSome = true ∧
    postedBatch (evalCycle st forD now [] fetch) = none ∧
    postedBatch (evalCycle st forD now firing none) = none := by
  have hne : firing.isEmpty = false := by
    cases firing with
    | nil => exact absurd rfl h
    | cons a l => rfl
  refine ⟨?_, ?_, ?_⟩
  · simp [evalCycle, hne, postedBatch]
  · simp [evalCycle, postedBatch]
  · simp [evalCycle, hne, postedBatch]

/-- Closed instance of `submission_skipped_only_on_loop_exit`. -/
theorem submission_skipped_only_on_loop_exit_witness :
    (postedBatch (evalCycle [] 0 0 [emptyAlert] (some []))).isSome = true :=
  (submission_skipped_only_on_loop_exit [] 0 0 [emptyAlert] [] none
    (by intro h; cases h)).1

/-! ### Claim theorems: duplicate handling -/

/-- Counterexample to C1 as stated: two firing rows with identical
labels that are past their for-duration both land in the submission
batch — the loop at `main.go` lines 248-255 appends every instance
passing `ShouldFire`, with no per-identity deduplication — so the batch
holds two SubmissionAlerts for one identity. -/
theorem duplicate_instances_not_suppressed_cex :
    ¬ (((reconcile [("alertname=r", 0)] 5 10
        [{ labels := [("alertname", "r")], annotations := [], startsAt := 10, endsAt := none },
         { labels := [("alertname", "r")], annotations := [], startsAt := 10, endsAt := none }]
        []).batch).countP
        (fun x => key x.labels == key [("alertname", "r")]) ≤ 1) := by decide

/-- C1 amended: two ConditionInstances with identical label mappings
collapse onto a single debounce record (the second `MarkActive` is a
no-op, so the cycle's store effect is one `markActive`), but duplicate
suppression of the output does not happen: when the identity passes the
for-duration check, each of the two instances contributes its own
SubmissionAlert, so the batch carries two for that identity. -/
theorem duplicate_instances_each_submitted (st : StateMap) (forD now : Int)
    (a b : PostableAlert)
    (hk : key b.labels = key a.labels)
    (haa : deepEqual a.labels a.labels = true)
    (hba : deepEqual b.labels a.labels = true)
    (hf : shouldFire (markActive st (key a.labels) now) (key a.labels) forD now = true) :
    ((reconcile st forD now [a, b] []).batch).countP (fun x => deepEqual x.labels a.labels) = 2 ∧
    (reconcile st forD now [a, b] []).st = markActive st (key a.labels) now := by
  have hsome := lookupTime_markActive_isSome st (key a.labels) now
  have hma := markActive_of_isSome hsome now
  simp only [reconcile, phaseA, phaseB, List.foldl, hk, hma, hf, if_true]
  simp [nthA, List.countP_cons, haa, hba]

/-- Closed instance of `duplicate_instances_each_submitted`. -/
theorem duplicate_instances_each_submitted_witness :
    ((reconcile [] 0 5
        [{ labels := [("x", "1")], annotations := [], startsAt := 5, endsAt := none },
         { labels := [("x", "1")], annotations := [], startsAt := 5, endsAt := none }]
        []).batch).countP
      (fun x => deepEqual x.labels [("x", "1")]) = 2 :=
  (duplicate_instances_each_submitted [] 0 5
    { labels := [("x", "1")], annotations := [], startsAt := 5, endsAt := none }
    { labels := [("x", "1")], annotations := [], startsAt := 5, endsAt := none }
    rfl (by decide) (by decide) (by decide)).1

/-! ### Phase B fold infrastructure -/

/-- The cycle-invariant part of a firing alert: phase B only ever
writes `startsAt`. -/
def frame (a : PostableAlert) : LabelSet × LabelSet × Option Int :=
  (a.labels, a.annotations, a.endsAt)

theorem setStartAt_map_frame : ∀ (l : List PostableAlert) (i : Nat) (t : Int),
    (setStartAt l i t).map frame = l.map frame
  | [], _, _ => rfl
  | _ :: _, 0, t => by simp [setStartAt, frame]
  | a :: rest, n + 1, t => by simp [setStartAt, setStartAt_map_frame rest n t]

theorem map_labels_eq_of_map_frame {l₁ l₂ : List PostableAlert}
    (h : l₁.map frame = l₂.map frame) :
    l₁.map (fun a => a.labels) = l₂.map (fun a => a.labels) := by
  have h₁ := congrArg (List.map Prod.fst) h
  simpa [List.map_map, Function.comp, frame] using h₁

theorem stepExisting_map_frame (now : Int) (s : BState) (ex : GettableAlert) :
    (stepExisting now s ex).firing.map frame = s.firing.map frame := by
  unfold stepExisting
  cases h : findMatchL ex.labels (s.firing.map (fun a => a.labels)) with
  | none => rfl
  | some i => simp [setStartAt_map_frame]

theorem phaseB_map_frame (now : Int) : ∀ (exs : List GettableAlert) (s : BState),
    (phaseB now exs s).firing.map frame = s.firing.map frame
  | [], _ => rfl
  | ex :: rest, s => by
    show (phaseB now rest (stepExisting now s ex)).firing.map frame = _
    rw [phaseB_map_frame now rest (stepExisting now s ex), stepExisting_map_frame]

theorem findMatchL_some_lt {L : LabelSet} : ∀ {Ls : List LabelSet} {i : Nat},
    findMatchL L Ls = some i → i < Ls.length := by
  intro Ls
  induction Ls with
  | nil => intro i h; simp [findMatchL] at h
  | cons M rest ih =>
    intro i h
    simp only [findMatchL] at h
    cases hd : deepEqual L M with
    | true =>
      rw [hd, if_pos rfl] at h
      cases h
      simp
    | false =>
      rw [hd] at h
      simp only [Bool.false_eq_true, if_false, Option.map_eq_some'] at h
      obtain ⟨j, hj, rfl⟩ := h
      have := ih hj
      simp only [List.length_cons]
      omega

theorem findMatchL_some_get {L : LabelSet} : ∀ {Ls : List LabelSet} {i : Nat},
    findMatchL L Ls = some i → ∃ M, Ls[i]? = some M ∧ deepEqual L M = true := by
  intro Ls
  induction Ls with
  | nil => intro i h; simp [findMatchL] at h
  | cons M rest ih =>
    intro i h
    simp only [findMatchL] at h
    cases hd : deepEqual L M with
    | true =>
      rw [hd, if_pos rfl] at h
      cases h
      exact ⟨M, by simp, hd⟩
    | false =>
      rw [hd] at h
      simp only [Bool.false_eq_true, if_false, Option.map_eq_some'] at h
      obtain ⟨j, hj, rfl⟩ := h
      obtain ⟨M', hM', hd'⟩ := ih hj
      exact ⟨M', by simpa using hM', hd'⟩

theorem findMatchL_none {L : LabelSet} : ∀ {Ls : List LabelSet},
    findMatchL L Ls = none → ∀ M ∈ Ls, deepEqual L M = false := by
  intro Ls
  induction Ls with
  | nil => intro _ M hM; simp at hM
  | cons M₀ rest ih =>
    intro h M hM
    simp only [findMatchL] at h
    cases hd : deepEqual L M₀ with
    | true => rw [hd, if_pos rfl] at h; cases h
    | false =>
      rw [hd] at h
      simp only [Bool.false_eq_true, if_false, Option.map_eq_none'] at h
      rcases List.mem_cons.mp hM with rfl | hM'
      · exact hd
      · exact ih h M hM'

theorem phaseA_kept_bounds (forD now : Int) : ∀ (l : List PostableAlert) (st : StateMap) (i0 : Nat),
    ∀ j ∈ (phaseA forD now st i0 l).2, i0 ≤ j ∧ j < i0 + l.length := by
  intro l
  induction l with
  | nil => intro st i0 j hj; simp [phaseA] at hj
  | cons a rest ih =>
    intro st i0 j hj
    simp only [phaseA] at hj
    split at hj
    · rcases List.mem_cons.mp hj with rfl | hj'
      · simp only [List.length_cons]; omega
      · have := ih _ _ _ hj'
        simp only [List.length_cons]; omega
    · have := ih _ _ _ hj
      simp only [List.length_cons]; omega

theorem setStartAt_getElem?_self : ∀ (l : List PostableAlert) (i : Nat) (t : Int),
    (setStartAt l i t)[i]? = l[i]?.map (fun a => { a with startsAt := t })
  | [], _, _ => by simp [setStartAt]
  | _ :: _, 0, t => by simp [setStartAt]
  | a :: rest, n + 1, t => by simp [setStartAt, setStartAt_getElem?_self rest n t]

theorem setStartAt_getElem?_ne : ∀ (l : List PostableAlert) (i j : Nat), j ≠ i → ∀ t : Int,
    (setStartAt l i t)[j]? = l[j]?
  | [], _, _, _, _ => by simp [setStartAt]
  | a :: rest, 0, j, hne, t => by
    cases j with
    | zero => exact absurd rfl hne
    | succ m => simp [setStartAt]
  | a :: rest, n + 1, j, hne, t => by
    cases j with
    | zero => simp [setStartAt]
    | succ m => simp [setStartAt, setStartAt_getElem?_ne rest n m (fun h => hne (by omega)) t]

theorem phaseB_startsAt_preserved (now t : Int) (i : Nat) (F0 : List LabelSet) :
    ∀ (exs : List GettableAlert) (s : BState),
    s.firing.map (fun a => a.labels) = F0 →
    (∀ e ∈ exs, findMatchL e.labels F0 = some i → e.startsAt = t) →
    (s.firing[i]?.map (fun a => a.startsAt) = some t) →
    ((phaseB now exs s).firing[i]?.map (fun a => a.startsAt) = some t)
  | [], _, _, _, h => h
  | ex :: rest, s, hF, hres, h => by
    show ((phaseB now rest (stepExisting now s ex)).firing[i]?.map _ = some t)
    have hF' : (stepExisting now s ex).firing.map (fun a => a.labels) = F0 :=
      (map_labels_eq_of_map_frame (stepExisting_map_frame now s ex)).trans hF
    apply phaseB_startsAt_preserved now t i F0 rest (stepExisting now s ex) hF'
      (fun e he hm => hres e (List.mem_cons_of_mem _ he) hm)
    unfold stepExisting
    rw [hF]
    cases hm : findMatchL ex.labels F0 with
    | none => exact h
    | some j =>
      by_cases hij : j = i
      · subst hij
        have hst := hres ex (List.mem_cons_self _ _) hm
        rw [setStartAt_getElem?_self]
        cases hg : s.firing[j]? with
        | none => rw [hg] at h; simp at h
        | some af =>
          rw [hg] at h
          simp only [Option.map_some'] at h ⊢
          simp only [Option.some.injEq] at h
          simp [hst, h]
      · rw [setStartAt_getElem?_ne _ _ _ (fun hh => hij hh.symm)]
        exact h

theorem phaseB_resolved_spec (now : Int) : ∀ (exs : List GettableAlert) (s : BState),
    (phaseB now exs s).resolved = s.resolved ++
      (exs.filter (fun e =>
        (findMatchL e.labels (s.firing.map (fun a => a.labels))).isNone)).map
        (resolutionOf now) ∧
    (phaseB now exs s).resolvedKeys = s.resolvedKeys ++
      (exs.filter (fun e =>
        (findMatchL e.labels (s.firing.map (fun a => a.labels))).isNone)).map
        (fun e => key e.labels)
  | [], s => by simp [phaseB]
  | ex :: rest, s => by
    have hshow : phaseB now (ex :: rest) s = phaseB now rest (stepExisting now s ex) := rfl
    rw [hshow]
    have hrec := phaseB_resolved_spec now rest (stepExisting now s ex)
    cases hm : findMatchL ex.labels (s.firing.map (fun a => a.labels)) with
    | some j =>
      have hstep : stepExisting now s ex = { s with firing := setStartAt s.firing j ex.startsAt } := by
        unfold stepExisting
        rw [hm]
      have hFs : (setStartAt s.firing j ex.startsAt).map (fun a => a.labels)
          = s.firing.map (fun a => a.labels) :=
        map_labels_eq_of_map_frame (setStartAt_map_frame s.firing j ex.startsAt)
      rw [hstep] at hrec
      rw [hstep, hrec.1, hrec.2]
      simp only [hFs]
      simp [List.filter_cons, hm]
    | none =>
      have hstep : stepExisting now s ex = { s with
          resolved := s.resolved ++ [resolutionOf now ex],
          st := markResolved s.st (key ex.labels),
          resolvedKeys := s.resolvedKeys ++ [key ex.labels] } := by
        unfold stepExisting
        rw [hm]
      rw [hstep] at hrec
      rw [hstep, hrec.1, hrec.2]
      simp [List.filter_cons, hm]

/-- C3: start-time continuity.  If backend active alert `ex` matches
(first, at index `i`) a firing instance that passed the for-duration
check (`i` is in the candidate-submit set), and `i` is matched by no
backend alert with a different start time (backend identities are
unique in practice), then the batch contains a SubmissionAlert for that
identity carrying `ex`'s original start timestamp — the write at
`main.go` line 296 is visible through the shared pointers. -/
theorem start_time_continuity (st : StateMap) (forD now : Int)
    (firing : List PostableAlert) (exs : List GettableAlert) (ex : GettableAlert) (i : Nat)
    (hex : ex ∈ exs)
    (hm : findMatchL ex.labels (firing.map (fun a => a.labels)) = some i)
    (huni : ∀ e ∈ exs, findMatchL e.labels (firing.map (fun a => a.labels)) = some i →
      e.startsAt = ex.startsAt)
    (hkept : i ∈ (phaseA forD now st 0 firing).2) :
    ∃ sa ∈ (reconcile st forD now firing exs).batch,
      deepEqual ex.labels sa.labels = true ∧ sa.startsAt = ex.startsAt := by
  obtain ⟨l₁, l₂, rfl⟩ := List.append_of_mem hex
  have hilt : i < (firing.map (fun a => a.labels)).length := findMatchL_some_lt hm
  set s0 : BState :=
    { firing := firing, resolved := [], st := (phaseA forD now st 0 firing).1,
      resolvedKeys := [] } with hs0def
  set s1 := phaseB now l₁ s0 with hs1def
  set s2 := stepExisting now s1 ex with hs2def
  have hsplit : phaseB now (l₁ ++ ex :: l₂) s0 = phaseB now l₂ s2 := by
    simp only [phaseB, List.foldl_append, List.foldl_cons, hs1def, hs2def]
  have hs1F : s1.firing.map (fun a => a.labels) = firing.map (fun a => a.labels) :=
    map_labels_eq_of_map_frame (phaseB_map_frame now l₁ s0)
  have hs1len : s1.firing.length = firing.length := by
    have h := congrArg List.length hs1F
    simpa using h
  have hs2start : s2.firing[i]?.map (fun a => a.startsAt) = some ex.startsAt := by
    rw [hs2def]
    unfold stepExisting
    rw [hs1F, hm]
    rw [setStartAt_getElem?_self]
    have hlt' : i < s1.firing.length := by
      rw [hs1len]
      simpa using hilt
    obtain ⟨af, haf⟩ : ∃ af, s1.firing[i]? = some af := by
      cases hg : s1.firing[i]? with
      | none =>
        rw [List.getElem?_eq_none_iff] at hg
        omega
      | some af => exact ⟨af, rfl⟩
    rw [haf]
    simp
  have hs2F : s2.firing.map (fun a => a.labels) = firing.map (fun a => a.labels) :=
    (map_labels_eq_of_map_frame (stepExisting_map_frame now s1 ex)).trans hs1F
  set bs := phaseB now l₂ s2 with hbsdef
  have hbstart : bs.firing[i]?.map (fun a => a.startsAt) = some ex.startsAt :=
    phaseB_startsAt_preserved now ex.startsAt i (firing.map (fun a => a.labels)) l₂ s2 hs2F
      (fun e he hme => huni e (List.mem_append_right _ (List.mem_cons_of_mem _ he)) hme)
      hs2start
  have hbF : bs.firing.map (fun a => a.labels) = firing.map (fun a => a.labels) :=
    (map_labels_eq_of_map_frame (phaseB_map_frame now l₂ s2)).trans hs2F
  obtain ⟨af, haf⟩ : ∃ af, bs.firing[i]? = some af := by
    cases hg : bs.firing[i]? with
    | none => rw [hg] at hbstart; simp at hbstart
    | some af => exact ⟨af, rfl⟩
  have hafstart : af.startsAt = ex.startsAt := by
    rw [haf] at hbstart
    simpa using hbstart
  have haflabels : deepEqual ex.labels af.labels = true := by
    obtain ⟨M, hM, hdM⟩ := findMatchL_some_get hm
    have h1 : (bs.firing.map (fun a => a.labels))[i]? = some M := by
      rw [hbF]
      exact hM
    rw [List.getElem?_map, haf] at h1
    simp only [Option.map_some', Option.some.injEq] at h1
    rw [h1]
    exact hdM
  refine ⟨af, ?_, haflabels, hafstart⟩
  have hnth : nthA bs.firing i = af := by
    simp [nthA, List.get?_eq_getElem?, haf]
  show af ∈ (reconcile st forD now firing (l₁ ++ ex :: l₂)).batch
  simp only [reconcile]
  rw [← hs0def, hsplit]
  exact List.mem_append_left _ (List.mem_map.mpr ⟨i, hkept, hnth⟩)

/-- C2 amended: every backend ActiveAlert whose label mapping matches
no entry of the cycle's *full firing set* (not just the
candidate-submit set; the scan at `main.go` line 290 runs over
`firingAlerts`) and is the only backend alert with its labels and start
time contributes exactly one resolution SubmissionAlert — carrying its
labels and start timestamp plus an end timestamp set to `now`, but
*empty annotations* (line 302 copies `existing.Alert`, which holds only
the labels) — and `MarkResolved` is called on its identity. -/
theorem unmatched_active_alert_resolution (st : StateMap) (forD now : Int)
    (firing : List PostableAlert) (exs : List GettableAlert) (ex : GettableAlert)
    (hex : ex ∈ exs)
    (hnm : findMatchL ex.labels (firing.map (fun a => a.labels)) = none)
    (hself : deepEqual ex.labels ex.labels = true)
    (hu : exs.countP (fun e =>
      decide (e.labels = ex.labels) && decide (e.startsAt = ex.startsAt)) = 1) :
    ((reconcile st forD now firing exs).batch).countP
      (fun sa => decide (sa = resolutionOf now ex)) = 1 ∧
    key ex.labels ∈ (reconcile st forD now firing exs).resolvedKeys := by
  set s0 : BState :=
    { firing := firing, resolved := [], st := (phaseA forD now st 0 firing).1,
      resolvedKeys := [] } with hs0def
  set bs := phaseB now exs s0 with hbsdef
  have hspec := phaseB_resolved_spec now exs s0
  have hres : bs.resolved = (exs.filter (fun e =>
      (findMatchL e.labels (firing.map (fun a => a.labels))).isNone)).map
      (resolutionOf now) := by
    rw [hbsdef, hspec.1, hs0def]
    simp
  have hkeys : bs.resolvedKeys = (exs.filter (fun e =>
      (findMatchL e.labels (firing.map (fun a => a.labels))).isNone)).map
      (fun e => key e.labels) := by
    rw [hbsdef, hspec.2, hs0def]
    simp
  have hbF : bs.firing.map (fun a => a.labels) = firing.map (fun a => a.labels) :=
    map_labels_eq_of_map_frame (phaseB_map_frame now exs s0)
  constructor
  · simp only [reconcile]
    rw [← hs0def, ← hbsdef, List.countP_append]
    have hzero : (List.map (nthA bs.firing) (phaseA forD now st 0 firing).2).countP
        (fun sa => decide (sa = resolutionOf now ex)) = 0 := by
      rw [List.countP_eq_zero]
      intro sa hsa
      obtain ⟨j, hj, rfl⟩ := List.mem_map.mp hsa
      have hjlt : j < firing.length := by
        have := phaseA_kept_bounds forD now firing st 0 j hj
        omega
      have hjlt' : j < bs.firing.length := by
        have h := congrArg List.length hbF
        simp only [List.length_map] at h
        omega
      obtain ⟨af, haf⟩ : ∃ af, bs.firing[j]? = some af :=
        ⟨_, List.getElem?_eq_getElem hjlt'⟩
      have hnth : nthA bs.firing j = af := by
        simp [nthA, List.get?_eq_getElem?, haf]
      rw [hnth]
      simp only [decide_eq_true_eq]
      intro heq
      have hlab : af.labels = ex.labels := by rw [heq]; rfl
      obtain ⟨bf, hbf⟩ : ∃ bf, firing[j]? = some bf :=
        ⟨_, List.getElem?_eq_getElem hjlt⟩
      have h1 : (bs.firing.map (fun a => a.labels))[j]?
          = (firing.map (fun a => a.labels))[j]? := by rw [hbF]
      rw [List.getElem?_map, List.getElem?_map, haf, hbf] at h1
      simp only [Option.map_some', Option.some.injEq] at h1
      have hbfmem : bf.labels ∈ firing.map (fun a => a.labels) := by
        apply List.mem_map.mpr
        refine ⟨bf, ?_, rfl⟩
        rw [← List.get?_eq_getElem?] at hbf
        exact List.get?_mem hbf
      have hfalse := findMatchL_none hnm bf.labels hbfmem
      rw [← h1, hlab, hself] at hfalse
      cases hfalse
    have hone : bs.resolved.countP (fun sa => decide (sa = resolutionOf now ex)) = 1 := by
      rw [hres, List.countP_map, List.countP_filter, ← hu]
      apply List.countP_congr
      intro e he
      by_cases h1 : e.labels = ex.labels
      · by_cases h2 : e.startsAt = ex.startsAt
        · simp [resolutionOf, Function.comp, h1, h2, hnm]
        · simp [resolutionOf, Function.comp, h1, h2]
      · simp [resolutionOf, Function.comp, h1]
    rw [hzero, hone]
  · simp only [reconcile]
    rw [← hs0def, ← hbsdef, hkeys]
    apply List.mem_map.mpr
    refine ⟨ex, ?_, rfl⟩
    rw [List.mem_filter]
    exact ⟨hex, by simp [hnm]⟩

/-- Closed instance of `start_time_continuity`: a continuing alert is
submitted with the backend's start timestamp 2, not the fresh 10. -/
theorem start_time_continuity_witness :
    ∃ sa ∈ (reconcile [("a=1", 0)] 5 10
        [{ labels := [("a", "1")], annotations := [], startsAt := 10, endsAt := none }]
        [{ labels := [("a", "1")], annotations := [], startsAt := 2 }]).batch,
      deepEqual [("a", "1")] sa.labels = true ∧ sa.startsAt = 2 :=
  start_time_continuity [("a=1", 0)] 5 10
    [{ labels := [("a", "1")], annotations := [], startsAt := 10, endsAt := none }]
    [{ labels := [("a", "1")], annotations := [], startsAt := 2 }]
    { labels := [("a", "1")], annotations := [], startsAt := 2 } 0
    (by decide) (by decide) (by decide) (by decide)

/-- Counterexample to C2 as stated: one firing instance with labels
`{a:1}` that is still inside its for-duration window (so the
candidate-submit set is empty), and two backend active alerts — one
with labels `{a:1}` and annotations, one with labels `{c:2}` and
annotations.  The `{a:1}` alert matches no candidate, yet the engine
emits no SubmissionAlert for it and never calls `MarkResolved` on its
identity (it matched the raw firing set instead); and the `{c:2}`
resolution that is emitted has lost its annotations. -/
theorem resolution_not_per_candidate_cex :
    (reconcile [] 5 10
        [{ labels := [("a", "1")], annotations := [], startsAt := 10, endsAt := none }]
        [{ labels := [("a", "1")], annotations := [("note", "n")], startsAt := 3 },
         { labels := [("c", "2")], annotations := [("note", "n")], startsAt := 3 }]).batch
      = [{ labels := [("c", "2")], annotations := [], startsAt := 3, endsAt := some 10 }] ∧
    (reconcile [] 5 10
        [{ labels := [("a", "1")], annotations := [], startsAt := 10, endsAt := none }]
        [{ labels := [("a", "1")], annotations := [("note", "n")], startsAt := 3 },
         { labels := [("c", "2")], annotations := [("note", "n")], startsAt := 3 }]).resolvedKeys
      = ["c=2"] := by
  constructor
  · decide
  · decide

/-- Closed instance of `unmatched_active_alert_resolution`. -/
theorem unmatched_active_alert_resolution_witness :
    ((reconcile [] 0 10
        [{ labels := [("b", "1")], annotations := [], startsAt := 10, endsAt := none }]
        [{ labels := [("a", "1")], annotations := [("note", "n")], startsAt := 3 }]).batch).countP
      (fun sa => decide (sa = resolutionOf 10
        { labels := [("a", "1")], annotations := [("note", "n")], startsAt := 3 })) = 1 ∧
    key [("a", "1")] ∈ (reconcile [] 0 10
        [{ labels := [("b", "1")], annotations := [], startsAt := 10, endsAt := none }]
        [{ labels := [("a", "1")], annotations := [("note", "n")], startsAt := 3 }]).resolvedKeys :=
  unmatched_active_alert_resolution [] 0 10
    [{ labels := [("b", "1")], annotations := [], startsAt := 10, endsAt := none }]
    [{ labels := [("a", "1")], annotations := [("note", "n")], startsAt := 3 }]
    { labels := [("a", "1")], annotations := [("note", "n")], startsAt := 3 }
    (by decide) (by decide) (by decide) (by decide)
